import Mathlib

/-!
Shallow embedding of `src/rest_list.py`: a FastAPI service exposing CRUD
operations over a single SQLite table `messages(id INTEGER PRIMARY KEY
AUTOINCREMENT, text TEXT NOT NULL)`.

The persistent store is modelled as a `Table`: the list of rows kept in
rowid (= id) order, exactly as SQLite's B-tree stores and scans them,
together with `seq`, the largest rowid ever inserted, as recorded by
SQLite in `sqlite_sequence` for an AUTOINCREMENT table.  Each SQL
statement issued by a handler becomes one Lean function with the same
result (rowcount for UPDATE/DELETE, lastrowid for INSERT, rows for
SELECT).  Each FastAPI handler becomes a function from the committed
pre-request table to the HTTP outcome paired with the committed
post-request table; the Python sqlite3 connection commits exactly where
the handler calls `conn.commit()`, and uncommitted work is discarded
when the per-request connection closes (`conn.rollback()` / close).
-/

namespace RestList

/-- One row of the `messages` table: `id INTEGER PRIMARY KEY`, `text TEXT`.
`row_to_dict` in the source maps such a row to the response payload
with fields `id` and `text`; the payload is the row itself here. -/
structure Row where
  id : Int
  text : String
deriving DecidableEq, Repr

/-- The `messages` table: rows in rowid order plus the `sqlite_sequence`
value `seq`, the largest rowid ever inserted (0 for a fresh table). -/
structure Table where
  rows : List Row
  seq : Int
deriving DecidableEq, Repr

/-- `init_db`: `CREATE TABLE IF NOT EXISTS messages (...)` on a fresh
database file yields the empty table with sequence value 0. -/
def init_db : Table := ⟨[], 0⟩

/-- Insert a row into the rowid-ordered B-tree: it lands before the first
row with a larger id. -/
def insertRow (r : Row) : List Row → List Row
  | [] => [r]
  | x :: xs => if r.id < x.id then r :: x :: xs else x :: insertRow r xs

/-- `SELECT * FROM messages;` followed by `fetchall()`: all rows in
rowid order. -/
def selectAll (t : Table) : List Row := t.rows

/-- `SELECT * FROM messages WHERE id = ?;` followed by `fetchone()`:
the row with that primary key, if any. -/
def selectById (t : Table) (id : Int) : Option Row :=
  t.rows.find? (fun r => r.id == id)

/-- The table after `UPDATE messages SET text = ? WHERE id = ?;`:
every row whose id matches gets the new text. -/
def updatedTable (t : Table) (id : Int) (text : String) : Table :=
  ⟨t.rows.map (fun r => if r.id == id then { r with text := text } else r), t.seq⟩

/-- `cur.rowcount` after that UPDATE: the number of matched rows. -/
def updateCount (t : Table) (id : Int) : Nat :=
  (t.rows.filter (fun r => r.id == id)).length

/-- The table after `DELETE FROM messages WHERE id = ?;`. -/
def deletedTable (t : Table) (id : Int) : Table :=
  ⟨t.rows.filter (fun r => !(r.id == id)), t.seq⟩

/-- `cur.rowcount` after that DELETE: the number of deleted rows. -/
def deleteCount (t : Table) (id : Int) : Nat :=
  (t.rows.filter (fun r => r.id == id)).length

/-- The largest rowid in use or ever used: the maximum of the
`sqlite_sequence` value and the rowids currently in the table. -/
def Table.maxUsed (t : Table) : Int :=
  t.rows.foldr (fun r m => max r.id m) t.seq

/-- `INSERT INTO messages (text) VALUES (?);` on an AUTOINCREMENT table:
the new rowid (`cur.lastrowid`) is one more than the largest rowid that
has ever existed, and `sqlite_sequence` is updated to it. -/
def Table.insertAuto (t : Table) (text : String) : Table × Int :=
  let newId := t.maxUsed + 1
  (⟨insertRow ⟨newId, text⟩ t.rows, newId⟩, newId)

/-- `INSERT INTO messages (id, text) VALUES (?, ?);`: fails with an
IntegrityError (UNIQUE constraint on the primary key) if a row with
that id exists; otherwise inserts the row and raises `sqlite_sequence`
to the new id when it is larger. -/
def Table.insertWithId (t : Table) (id : Int) (text : String) : Option Table :=
  if t.rows.any (fun r => r.id == id) then none
  else some ⟨insertRow ⟨id, text⟩ t.rows, max t.seq id⟩

/-- Outcome of one request, as FastAPI serialises it:
a JSON list of messages, a single message, an empty body, an
`HTTPException` with its status code and detail string, a framework
422 for a missing required query parameter, or a 500 from an
uncaught exception (e.g. a sqlite3 IntegrityError). -/
inductive HResult where
  | okList (statusCode : Nat) (body : List Row)
  | okMsg (statusCode : Nat) (body : Row)
  | okEmpty (statusCode : Nat)
  | httpError (statusCode : Nat) (detail : String)
  | validationError
  | serverError
deriving DecidableEq, Repr

/-- Handler for `GET /messages`: `SELECT *`, `fetchall()`, map
`row_to_dict` over the rows; no write, so the committed table is the
one the request started from. -/
def get_messages (db : Table) : HResult × Table :=
  (.okList 200 (selectAll db), db)

/-- Handler for GET of a single message by id: `SELECT ... WHERE id = ?`,
404 `Message not found` when `fetchone()` returns no row; no write. -/
def get_message (id : Int) (db : Table) : HResult × Table :=
  match selectById db id with
  | none => (.httpError 404 "Message not found", db)
  | some row => (.okMsg 200 row, db)

/-- Handler for `POST /messages`: INSERT with store-assigned id,
`conn.commit()`, then re-read the inserted row by `lastrowid` and
return it with status 201.  If the re-read found no row,
`row_to_dict(None)` would raise, surfacing as a 500 after the commit. -/
def create_message (text : String) (db : Table) : HResult × Table :=
  let inserted := db.insertAuto text
  let committed := inserted.1
  let new_id := inserted.2
  match selectById committed new_id with
  | none => (.serverError, committed)
  | some row => (.okMsg 201 row, committed)

/-- Handler for PUT of a message by id: UPDATE by id; when
`cur.rowcount == 0`, INSERT with the explicit id (an IntegrityError
here would surface as a 500 with nothing committed) and commit with
status 201, otherwise commit the update with the default status 200;
then re-read the row by id and return it. -/
def put_message (id : Int) (text : String) (db : Table) : HResult × Table :=
  let t1 := updatedTable db id text
  if updateCount db id == 0 then
    match t1.insertWithId id text with
    | none => (.serverError, db)
    | some t2 =>
      match selectById t2 id with
      | none => (.serverError, t2)
      | some row => (.okMsg 201 row, t2)
  else
    match selectById t1 id with
    | none => (.serverError, t1)
    | some row => (.okMsg 200 row, t1)

/-- Handler for PATCH of a message by id: UPDATE by id; when
`cur.rowcount == 0`, `conn.rollback()` and raise 404 `Message not
found`, leaving the committed table untouched; otherwise commit,
re-read the row and return it with status 200. -/
def patch_message (id : Int) (text : String) (db : Table) : HResult × Table :=
  let t1 := updatedTable db id text
  if updateCount db id == 0 then
    (.httpError 404 "Message not found", db)
  else
    match selectById t1 id with
    | none => (.serverError, t1)
    | some row => (.okMsg 200 row, t1)

/-- Handler for DELETE of a message by id: DELETE by id; when
`cur.rowcount == 0`, `conn.rollback()` and raise 404 `Message not
found`; otherwise commit and return 204 with no body. -/
def delete_message (id : Int) (db : Table) : HResult × Table :=
  if deleteCount db id == 0 then
    (.httpError 404 "Message not found", db)
  else
    (.okEmpty 204, deletedTable db id)

/-- FastAPI route layer for `POST /messages`: the handler declares
`text: str = Query(...)`, so the framework rejects a request with no
`text` query parameter with a 422 before the handler runs, and passes
any supplied string through unchanged — the empty string included,
since the declaration carries no length constraint. -/
def route_create (text? : Option String) (db : Table) : HResult × Table :=
  match text? with
  | none => (.validationError, db)
  | some text => create_message text db

/-- FastAPI route layer for PUT by id: `text: str = Query(...)`,
as in `route_create`. -/
def route_put (id : Int) (text? : Option String) (db : Table) : HResult × Table :=
  match text? with
  | none => (.validationError, db)
  | some text => put_message id text db

/-- FastAPI route layer for PATCH by id: `text: str = Query(...)`,
as in `route_create`. -/
def route_patch (id : Int) (text? : Option String) (db : Table) : HResult × Table :=
  match text? with
  | none => (.validationError, db)
  | some text => patch_message id text db

/-- Well-formedness of a reachable table state: ids are pairwise
distinct (`id` is the primary key) and no id exceeds the recorded
`sqlite_sequence` value. -/
def Table.WF (t : Table) : Prop :=
  (t.rows.map Row.id).Nodup ∧ ∀ r ∈ t.rows, r.id ≤ t.seq

instance : DecidablePred Table.WF := fun t => by
  unfold Table.WF
  infer_instance

/-! Helper lemmas about the statement-level primitives. -/

theorem mem_insertRow {a r : Row} {l : List Row} :
    a ∈ insertRow r l ↔ a = r ∨ a ∈ l := by
  induction l with
  | nil => simp [insertRow]
  | cons x xs ih =>
    by_cases h : r.id < x.id
    · simp [insertRow, h]
    · simp [insertRow, h, ih]
      tauto

theorem length_insertRow (r : Row) (l : List Row) :
    (insertRow r l).length = l.length + 1 := by
  induction l with
  | nil => simp [insertRow]
  | cons x xs ih =>
    by_cases h : r.id < x.id
    · simp [insertRow, h]
    · simp [insertRow, h, ih]

theorem insertRow_perm (r : Row) (l : List Row) :
    (insertRow r l).Perm (r :: l) := by
  induction l with
  | nil => simp [insertRow]
  | cons x xs ih =>
    by_cases h : r.id < x.id
    · simp [insertRow, h]
    · simp only [insertRow, h, if_false]
      exact ((ih.cons x).trans (List.Perm.swap r x xs))

theorem insertRow_eq_append {r : Row} {l : List Row}
    (h : ∀ x ∈ l, x.id < r.id) : insertRow r l = l ++ [r] := by
  induction l with
  | nil => simp [insertRow]
  | cons x xs ih =>
    have hx : x.id < r.id := h x (List.mem_cons_self x xs)
    have hlt : ¬ r.id < x.id := by omega
    simp only [insertRow, hlt, if_false, List.cons_append, List.cons.injEq, true_and]
    exact ih (fun y hy => h y (List.mem_cons_of_mem x hy))

theorem find?_insertRow_fresh {l : List Row} {id : Int} {text : String}
    (h : ∀ x ∈ l, x.id ≠ id) :
    (insertRow ⟨id, text⟩ l).find? (fun r => r.id == id) = some ⟨id, text⟩ := by
  induction l with
  | nil => simp [insertRow]
  | cons x xs ih =>
    have hx : x.id ≠ id := h x (List.mem_cons_self x xs)
    by_cases hlt : (id : Int) < x.id
    · simp [insertRow, hlt, List.find?]
    · simp only [insertRow, hlt, if_false]
      rw [List.find?_cons_of_neg _ (by simpa using hx)]
      exact ih (fun y hy => h y (List.mem_cons_of_mem x hy))

theorem selectById_eq_none_iff {t : Table} {id : Int} :
    selectById t id = none ↔ ∀ r ∈ t.rows, r.id ≠ id := by
  simp [selectById, List.find?_eq_none]

theorem updateCount_eq_zero_iff {t : Table} {id : Int} :
    updateCount t id = 0 ↔ ∀ r ∈ t.rows, r.id ≠ id := by
  simp [updateCount, List.length_eq_zero, List.filter_eq_nil_iff]

theorem deleteCount_eq_zero_iff {t : Table} {id : Int} :
    deleteCount t id = 0 ↔ ∀ r ∈ t.rows, r.id ≠ id := by
  simp [deleteCount, List.length_eq_zero, List.filter_eq_nil_iff]

theorem map_upd_eq_self {l : List Row} {id : Int} {text : String}
    (h : ∀ r ∈ l, r.id = id → r.text = text) :
    l.map (fun r => if r.id == id then { r with text := text } else r) = l := by
  have : ∀ r ∈ l, (if r.id == id then ({ r with text := text } : Row) else r) = r := by
    intro r hr
    by_cases hid : r.id = id
    · have ht : r.text = text := h r hr hid
      cases r
      simp_all
    · simp [hid]
  calc l.map (fun r => if r.id == id then { r with text := text } else r)
      = l.map (fun r => r) := List.map_congr_left this
    _ = l := List.map_id' l

theorem updatedTable_of_no_match {t : Table} {id : Int} {text : String}
    (h : ∀ r ∈ t.rows, r.id ≠ id) : updatedTable t id text = t := by
  unfold updatedTable
  cases t with
  | mk rows seq =>
    simp only [Table.mk.injEq, and_true]
    exact map_upd_eq_self (fun r hr hid => absurd hid (h r hr))

theorem find?_map_upd {l : List Row} {id : Int} {text : String}
    (h : ∃ r ∈ l, r.id = id) :
    (l.map (fun r => if r.id == id then { r with text := text } else r)).find?
      (fun r => r.id == id) = some ⟨id, text⟩ := by
  obtain ⟨r0, hr0, hid0⟩ := h
  induction l with
  | nil => cases hr0
  | cons x xs ih =>
    by_cases hx : x.id = id
    · simp [List.find?, hx]
    · rw [List.map_cons]
      have hxx : (if (x.id == id) = true then ({ x with text := text } : Row) else x) = x := by
        simp [hx]
      rw [hxx, List.find?_cons_of_neg _ (by simpa using hx)]
      rcases List.mem_cons.mp hr0 with h1 | h1
      · exact absurd (h1 ▸ hid0) hx
      · exact ih h1

theorem selectById_updatedTable {t : Table} {id : Int} {text : String}
    (h : ∃ r ∈ t.rows, r.id = id) :
    selectById (updatedTable t id text) id = some ⟨id, text⟩ := by
  unfold selectById updatedTable
  exact find?_map_upd h

theorem mem_updatedTable {t : Table} {id : Int} {text : String} {r : Row}
    (hex : ∃ r0 ∈ t.rows, r0.id = id) :
    r ∈ (updatedTable t id text).rows ↔ (r ∈ t.rows ∧ r.id ≠ id) ∨ r = ⟨id, text⟩ := by
  unfold updatedTable
  simp only [List.mem_map]
  constructor
  · rintro ⟨x, hx, rfl⟩
    by_cases hxid : x.id = id
    · right
      simp [hxid]
    · left
      simpa [hxid] using hx
  · rintro (⟨hr, hrid⟩ | rfl)
    · exact ⟨r, hr, by simp [hrid]⟩
    · obtain ⟨r0, hr0, hid0⟩ := hex
      exact ⟨r0, hr0, by simp [hid0]⟩

theorem ids_updatedTable (t : Table) (id : Int) (text : String) :
    (updatedTable t id text).rows.map Row.id = t.rows.map Row.id := by
  unfold updatedTable
  simp only [List.map_map]
  apply List.map_congr_left
  intro r _
  by_cases hid : r.id = id <;> simp [hid]

theorem find?_of_nodup {l : List Row} {r0 : Row} {id : Int}
    (hn : (l.map Row.id).Nodup) (h0 : r0 ∈ l) (hid : r0.id = id) :
    l.find? (fun r => r.id == id) = some r0 := by
  induction l with
  | nil => cases h0
  | cons x xs ih =>
    rcases List.mem_cons.mp h0 with h1 | h1
    · subst h1
      simp [List.find?, hid]
    · have hn' : x.id ∉ xs.map Row.id ∧ (xs.map Row.id).Nodup := by
        rw [List.map_cons, List.nodup_cons] at hn
        exact hn
      have hx : x.id ≠ id := by
        intro hxid
        have hmem : r0.id ∈ xs.map Row.id := List.mem_map_of_mem Row.id h1
        rw [hid, ← hxid] at hmem
        exact hn'.1 hmem
      rw [List.find?_cons_of_neg _ (by simpa using hx)]
      exact ih hn'.2 h1

theorem filter_of_nodup {l : List Row} {r0 : Row} {id : Int}
    (hn : (l.map Row.id).Nodup) (h0 : r0 ∈ l) (hid : r0.id = id) :
    l.filter (fun r => r.id == id) = [r0] := by
  induction l with
  | nil => cases h0
  | cons x xs ih =>
    have hn' : x.id ∉ xs.map Row.id ∧ (xs.map Row.id).Nodup := by
      rw [List.map_cons, List.nodup_cons] at hn
      exact hn
    rcases List.mem_cons.mp h0 with h1 | h1
    · subst h1
      rw [List.filter_cons_of_pos (by simp [hid])]
      have : ∀ r ∈ xs, ¬ ((fun r => r.id == id) r = true) := by
        intro r hr hrid
        have hrid' : r.id = id := by simpa using hrid
        have : r.id ∈ xs.map Row.id := List.mem_map_of_mem Row.id hr
        rw [hrid', ← hid] at this
        exact hn'.1 this
      rw [List.filter_eq_nil_iff.mpr this]
    · have hx : x.id ≠ id := by
        intro hxid
        have : r0.id ∈ xs.map Row.id := List.mem_map_of_mem Row.id h1
        rw [hid, ← hxid] at this
        exact hn'.1 this
      rw [List.filter_cons_of_neg (by simpa using hx)]
      exact ih hn'.2 h1

theorem seed_le_foldr_max (l : List Row) (s : Int) :
    s ≤ l.foldr (fun r m => max r.id m) s := by
  induction l with
  | nil => simp
  | cons x xs ih =>
    simp only [List.foldr_cons]
    omega

theorem id_le_foldr_max {l : List Row} {r : Row} (h : r ∈ l) (s : Int) :
    r.id ≤ l.foldr (fun r m => max r.id m) s := by
  induction l with
  | nil => cases h
  | cons x xs ih =>
    simp only [List.foldr_cons]
    rcases List.mem_cons.mp h with h1 | h1
    · subst h1
      omega
    · have := ih h1
      omega

theorem seq_le_maxUsed (t : Table) : t.seq ≤ t.maxUsed :=
  seed_le_foldr_max t.rows t.seq

theorem id_le_maxUsed {t : Table} {r : Row} (h : r ∈ t.rows) : r.id ≤ t.maxUsed :=
  id_le_foldr_max h t.seq

theorem map_id_filter_ne (l : List Row) (id : Int) :
    (l.filter (fun r => !(r.id == id))).map Row.id =
      (l.map Row.id).filter (fun j => !(j == id)) := by
  induction l with
  | nil => simp
  | cons x xs ih =>
    by_cases hx : x.id = id
    · rw [List.filter_cons_of_neg (by simp [hx]), List.map_cons,
        List.filter_cons_of_neg (by simp [hx]), ih]
    · rw [List.filter_cons_of_pos (by simpa using hx), List.map_cons, List.map_cons,
        List.filter_cons_of_pos (by simpa using hx), ih]

theorem ids_deletedTable (t : Table) (id : Int) :
    (deletedTable t id).rows.map Row.id = (t.rows.map Row.id).filter (fun j => !(j == id)) :=
  map_id_filter_ne t.rows id

/-! Branch analyses of the handlers. -/

theorem get_message_of_absent {db : Table} {id : Int}
    (h : ∀ r ∈ db.rows, r.id ≠ id) :
    get_message id db = (.httpError 404 "Message not found", db) := by
  unfold get_message
  rw [selectById_eq_none_iff.mpr h]

theorem get_message_of_present {db : Table} {id : Int} {r0 : Row}
    (hn : (db.rows.map Row.id).Nodup) (h0 : r0 ∈ db.rows) (hid : r0.id = id) :
    get_message id db = (.okMsg 200 r0, db) := by
  unfold get_message selectById
  rw [find?_of_nodup hn h0 hid]

theorem create_message_eq (text : String) (db : Table) :
    create_message text db =
      (.okMsg 201 ⟨db.maxUsed + 1, text⟩,
       ⟨insertRow ⟨db.maxUsed + 1, text⟩ db.rows, db.maxUsed + 1⟩) := by
  have hfresh : ∀ x ∈ db.rows, x.id ≠ db.maxUsed + 1 := by
    intro x hx
    have := id_le_maxUsed hx
    omega
  unfold create_message Table.insertAuto
  simp only
  unfold selectById
  simp only
  rw [find?_insertRow_fresh hfresh]

theorem put_message_of_absent {db : Table} {id : Int} (text : String)
    (h : ∀ r ∈ db.rows, r.id ≠ id) :
    put_message id text db =
      (.okMsg 201 ⟨id, text⟩, ⟨insertRow ⟨id, text⟩ db.rows, max db.seq id⟩) := by
  unfold put_message
  rw [updatedTable_of_no_match h]
  rw [if_pos (by simp [updateCount_eq_zero_iff.mpr h])]
  have hany : db.rows.any (fun r => r.id == id) = false := by
    simp only [List.any_eq_false]
    intro r hr
    simpa using h r hr
  unfold Table.insertWithId
  rw [if_neg (by simp [hany])]
  unfold selectById
  simp only
  rw [find?_insertRow_fresh h]

theorem put_message_of_present {db : Table} {id : Int} (text : String)
    (hex : ∃ r ∈ db.rows, r.id = id) :
    put_message id text db = (.okMsg 200 ⟨id, text⟩, updatedTable db id text) := by
  have hcnt : ¬ updateCount db id = 0 := by
    intro h0
    obtain ⟨r0, hr0, hid0⟩ := hex
    exact (updateCount_eq_zero_iff.mp h0) r0 hr0 hid0
  unfold put_message
  rw [if_neg (by simpa using hcnt)]
  rw [selectById_updatedTable hex]

theorem patch_message_of_absent {db : Table} {id : Int} (text : String)
    (h : ∀ r ∈ db.rows, r.id ≠ id) :
    patch_message id text db = (.httpError 404 "Message not found", db) := by
  unfold patch_message
  rw [if_pos (by simp [updateCount_eq_zero_iff.mpr h])]

theorem patch_message_of_present {db : Table} {id : Int} (text : String)
    (hex : ∃ r ∈ db.rows, r.id = id) :
    patch_message id text db = (.okMsg 200 ⟨id, text⟩, updatedTable db id text) := by
  have hcnt : ¬ updateCount db id = 0 := by
    intro h0
    obtain ⟨r0, hr0, hid0⟩ := hex
    exact (updateCount_eq_zero_iff.mp h0) r0 hr0 hid0
  unfold patch_message
  rw [if_neg (by simpa using hcnt)]
  rw [selectById_updatedTable hex]

theorem delete_message_of_absent {db : Table} {id : Int}
    (h : ∀ r ∈ db.rows, r.id ≠ id) :
    delete_message id db = (.httpError 404 "Message not found", db) := by
  unfold delete_message
  rw [if_pos (by simp [deleteCount_eq_zero_iff.mpr h])]

theorem delete_message_of_present {db : Table} {id : Int}
    (hex : ∃ r ∈ db.rows, r.id = id) :
    delete_message id db = (.okEmpty 204, deletedTable db id) := by
  have hcnt : ¬ deleteCount db id = 0 := by
    intro h0
    obtain ⟨r0, hr0, hid0⟩ := hex
    exact (deleteCount_eq_zero_iff.mp h0) r0 hr0 hid0
  unfold delete_message
  rw [if_neg (by simpa using hcnt)]

theorem get_message_snd (id : Int) (db : Table) : (get_message id db).2 = db := by
  unfold get_message
  cases selectById db id <;> rfl

theorem updatedTable_eq_self {t : Table} {id : Int} {text : String}
    (h : ∀ r ∈ t.rows, r.id = id → r.text = text) : updatedTable t id text = t := by
  unfold updatedTable
  cases t with
  | mk rows seq =>
    simp only [Table.mk.injEq, and_true]
    exact map_upd_eq_self h

theorem WF_updatedTable {t : Table} (id : Int) (text : String) (hwf : t.WF) :
    (updatedTable t id text).WF := by
  constructor
  · rw [ids_updatedTable]
    exact hwf.1
  · intro r hr
    obtain ⟨x, hx, hxr⟩ := List.mem_map.mp hr
    have hxs : x.id ≤ t.seq := hwf.2 x hx
    have : r.id = x.id := by
      subst hxr
      by_cases hid : x.id = id <;> simp [hid]
    unfold updatedTable
    simp only
    omega

theorem WF_deletedTable {t : Table} (id : Int) (hwf : t.WF) :
    (deletedTable t id).WF := by
  constructor
  · rw [ids_deletedTable]
    exact List.Nodup.filter _ hwf.1
  · intro r hr
    have hr' : r ∈ t.rows := List.mem_of_mem_filter hr
    have := hwf.2 r hr'
    unfold deletedTable
    simp only
    omega

theorem not_forall_ne_iff {l : List Row} {id : Int} :
    ¬ (∀ r ∈ l, r.id ≠ id) ↔ ∃ r ∈ l, r.id = id := by
  push_neg
  rfl

/-! The claims. -/

/-- C1: PUT on a state with no row of the given id inserts a row with
exactly that id and text and returns 201 with the final Message; on a
state with a row of that id it updates that row's text and returns 200
with the final Message; in both cases a subsequent GET of that id
returns the new text. -/
theorem C1_put_upsert (db : Table) (id : Int) (text : String) :
    ((∀ r ∈ db.rows, r.id ≠ id) →
      (put_message id text db).1 = .okMsg 201 ⟨id, text⟩ ∧
      (∀ r : Row, r ∈ (put_message id text db).2.rows ↔ r ∈ db.rows ∨ r = ⟨id, text⟩) ∧
      (put_message id text db).2.rows.length = db.rows.length + 1 ∧
      (get_message id (put_message id text db).2).1 = .okMsg 200 ⟨id, text⟩) ∧
    ((∃ r ∈ db.rows, r.id = id) →
      (put_message id text db).1 = .okMsg 200 ⟨id, text⟩ ∧
      (∀ r : Row, r ∈ (put_message id text db).2.rows ↔
        (r ∈ db.rows ∧ r.id ≠ id) ∨ r = ⟨id, text⟩) ∧
      (put_message id text db).2.rows.length = db.rows.length ∧
      (get_message id (put_message id text db).2).1 = .okMsg 200 ⟨id, text⟩) := by
  constructor
  · intro habs
    rw [put_message_of_absent text habs]
    refine ⟨rfl, ?_, ?_, ?_⟩
    · intro r
      simpa [mem_insertRow] using or_comm
    · exact length_insertRow _ _
    · unfold get_message selectById
      simp only
      rw [find?_insertRow_fresh habs]
  · intro hex
    rw [put_message_of_present text hex]
    refine ⟨rfl, ?_, ?_, ?_⟩
    · intro r
      exact mem_updatedTable hex
    · unfold updatedTable
      simp
    · unfold get_message
      rw [selectById_updatedTable hex]

/-- Witness for C1 at concrete inputs: the insert branch on a table
holding only id 1 with the fresh id 2, and the update branch on the
same table at the existing id 1. -/
theorem C1_put_upsert_witness :
    ((put_message 2 "b" ⟨[⟨1, "a"⟩], 1⟩).1 = .okMsg 201 ⟨2, "b"⟩ ∧
      (∀ r : Row, r ∈ (put_message 2 "b" ⟨[⟨1, "a"⟩], 1⟩).2.rows ↔
        r ∈ [(⟨1, "a"⟩ : Row)] ∨ r = ⟨2, "b"⟩) ∧
      (put_message 2 "b" ⟨[⟨1, "a"⟩], 1⟩).2.rows.length = 2 ∧
      (get_message 2 (put_message 2 "b" ⟨[⟨1, "a"⟩], 1⟩).2).1 = .okMsg 200 ⟨2, "b"⟩) ∧
    ((put_message 1 "c" ⟨[⟨1, "a"⟩], 1⟩).1 = .okMsg 200 ⟨1, "c"⟩ ∧
      (∀ r : Row, r ∈ (put_message 1 "c" ⟨[⟨1, "a"⟩], 1⟩).2.rows ↔
        (r ∈ [(⟨1, "a"⟩ : Row)] ∧ r.id ≠ 1) ∨ r = ⟨1, "c"⟩) ∧
      (put_message 1 "c" ⟨[⟨1, "a"⟩], 1⟩).2.rows.length = 1 ∧
      (get_message 1 (put_message 1 "c" ⟨[⟨1, "a"⟩], 1⟩).2).1 = .okMsg 200 ⟨1, "c"⟩) :=
  ⟨(C1_put_upsert ⟨[⟨1, "a"⟩], 1⟩ 2 "b").1 (by decide),
   (C1_put_upsert ⟨[⟨1, "a"⟩], 1⟩ 1 "c").2 ⟨⟨1, "a"⟩, by decide, by decide⟩⟩

/-- C2: PATCH on an id absent from the table fails with 404 and detail
`Message not found`, and the committed table after the request is
exactly the table before it. -/
theorem C2_patch_absent (db : Table) (id : Int) (text : String)
    (h : ∀ r ∈ db.rows, r.id ≠ id) :
    patch_message id text db = (.httpError 404 "Message not found", db) :=
  patch_message_of_absent text h

/-- Witness for C2: PATCH of id 2 on a table holding only id 1. -/
theorem C2_patch_absent_witness :
    (∀ r ∈ ([⟨1, "a"⟩] : List Row), r.id ≠ 2) ∧
    patch_message 2 "z" ⟨[⟨1, "a"⟩], 1⟩ = (.httpError 404 "Message not found", ⟨[⟨1, "a"⟩], 1⟩) :=
  ⟨by decide, C2_patch_absent ⟨[⟨1, "a"⟩], 1⟩ 2 "z" (by decide)⟩

/-- C3: DELETE on a state containing a row with the given id removes
exactly that row and returns 204 with an empty body, and a subsequent
GET of that id returns 404; DELETE on a state with no such row returns
404 and leaves the table unchanged. -/
theorem C3_delete (db : Table) (hwf : db.WF) (id : Int) :
    (∀ r0 ∈ db.rows, r0.id = id →
      (delete_message id db).1 = .okEmpty 204 ∧
      (∀ r : Row, r ∈ (delete_message id db).2.rows ↔ r ∈ db.rows ∧ r ≠ r0) ∧
      (delete_message id db).2.rows.length + 1 = db.rows.length ∧
      (get_message id (delete_message id db).2).1 = .httpError 404 "Message not found") ∧
    ((∀ r ∈ db.rows, r.id ≠ id) →
      delete_message id db = (.httpError 404 "Message not found", db)) := by
  constructor
  · intro r0 hr0 hid0
    rw [delete_message_of_present ⟨r0, hr0, hid0⟩]
    refine ⟨rfl, ?_, ?_, ?_⟩
    · intro r
      unfold deletedTable
      simp only [List.mem_filter]
      constructor
      · rintro ⟨hr, hrid⟩
        have hrid' : r.id ≠ id := by simpa using hrid
        exact ⟨hr, fun hrr0 => hrid' (hrr0 ▸ hid0)⟩
      · rintro ⟨hr, hrr0⟩
        have hrid : r.id ≠ id := by
          intro hrid
          apply hrr0
          have hfil : db.rows.filter (fun r => r.id == id) = [r0] :=
            filter_of_nodup hwf.1 hr0 hid0
          have hmem : r ∈ db.rows.filter (fun r => r.id == id) :=
            List.mem_filter.mpr ⟨hr, by simpa using hrid⟩
          rw [hfil] at hmem
          simpa using hmem
        exact ⟨hr, by simpa using hrid⟩
    · unfold deletedTable
      simp only
      have hsplit := List.length_eq_length_filter_add (l := db.rows) (fun r => r.id == id)
      have hfil : db.rows.filter (fun r => r.id == id) = [r0] :=
        filter_of_nodup hwf.1 hr0 hid0
      rw [hfil] at hsplit
      simp only [List.length_singleton] at hsplit
      omega
    · have habs : ∀ r ∈ (deletedTable db id).rows, r.id ≠ id := by
        intro r hr
        have := (List.mem_filter.mp hr).2
        simpa using this
      rw [get_message_of_absent habs]
  · intro habs
    exact delete_message_of_absent habs

/-- Witness for C3 at concrete inputs: deleting the present id 1 from a
two-row table, and deleting the absent id 3 from it. -/
theorem C3_delete_witness :
    (⟨[⟨1, "a"⟩, ⟨2, "b"⟩], 2⟩ : Table).WF ∧
    ((delete_message 1 ⟨[⟨1, "a"⟩, ⟨2, "b"⟩], 2⟩).1 = .okEmpty 204 ∧
      (∀ r : Row, r ∈ (delete_message 1 ⟨[⟨1, "a"⟩, ⟨2, "b"⟩], 2⟩).2.rows ↔
        r ∈ [(⟨1, "a"⟩ : Row), ⟨2, "b"⟩] ∧ r ≠ ⟨1, "a"⟩) ∧
      (delete_message 1 ⟨[⟨1, "a"⟩, ⟨2, "b"⟩], 2⟩).2.rows.length + 1 = 2 ∧
      (get_message 1 (delete_message 1 ⟨[⟨1, "a"⟩, ⟨2, "b"⟩], 2⟩).2).1 =
        .httpError 404 "Message not found") ∧
    delete_message 3 ⟨[⟨1, "a"⟩, ⟨2, "b"⟩], 2⟩ =
      (.httpError 404 "Message not found", ⟨[⟨1, "a"⟩, ⟨2, "b"⟩], 2⟩) :=
  ⟨by decide,
   (C3_delete ⟨[⟨1, "a"⟩, ⟨2, "b"⟩], 2⟩ (by decide) 1).1 ⟨1, "a"⟩ (by decide) (by decide),
   (C3_delete ⟨[⟨1, "a"⟩, ⟨2, "b"⟩], 2⟩ (by decide) 3).2 (by decide)⟩

/-- C4: GET of a single id returns 200 with the stored Message when a
row with that id is present, raises 404 with detail `Message not
found` exactly when no such row is present, and leaves the committed
table unchanged in either case. -/
theorem C4_get_by_id (db : Table) (hwf : db.WF) (id : Int) :
    (∀ r0 ∈ db.rows, r0.id = id → get_message id db = (.okMsg 200 r0, db)) ∧
    ((get_message id db).1 = .httpError 404 "Message not found" ↔
      ∀ r ∈ db.rows, r.id ≠ id) ∧
    (get_message id db).2 = db := by
  refine ⟨?_, ?_, get_message_snd id db⟩
  · intro r0 hr0 hid0
    exact get_message_of_present hwf.1 hr0 hid0
  · by_cases habs : ∀ r ∈ db.rows, r.id ≠ id
    · rw [get_message_of_absent habs]
      simpa using habs
    · obtain ⟨r0, hr0, hid0⟩ := not_forall_ne_iff.mp habs
      rw [get_message_of_present hwf.1 hr0 hid0]
      constructor
      · intro hcontra
        exact absurd hcontra (by simp)
      · intro hctr
        exact absurd hid0 (hctr r0 hr0)

/-- Witness for C4: GET of the present id 2 and the absent id 3 on a
two-row table. -/
theorem C4_get_by_id_witness :
    (⟨[⟨1, "a"⟩, ⟨2, "b"⟩], 2⟩ : Table).WF ∧
    get_message 2 ⟨[⟨1, "a"⟩, ⟨2, "b"⟩], 2⟩ = (.okMsg 200 ⟨2, "b"⟩, ⟨[⟨1, "a"⟩, ⟨2, "b"⟩], 2⟩) ∧
    ((get_message 3 ⟨[⟨1, "a"⟩, ⟨2, "b"⟩], 2⟩).1 = .httpError 404 "Message not found" ↔
      ∀ r ∈ ([⟨1, "a"⟩, ⟨2, "b"⟩] : List Row), r.id ≠ 3) :=
  ⟨by decide,
   (C4_get_by_id ⟨[⟨1, "a"⟩, ⟨2, "b"⟩], 2⟩ (by decide) 2).1 ⟨2, "b"⟩ (by decide) (by decide),
   (C4_get_by_id ⟨[⟨1, "a"⟩, ⟨2, "b"⟩], 2⟩ (by decide) 3).2.1⟩

/-- C5: for every text and every starting table, POST followed by GET
of the id returned by the POST yields a Message with exactly the
posted text. -/
theorem C5_post_then_get (db : Table) (text : String) :
    ∃ newId : Int,
      (create_message text db).1 = .okMsg 201 ⟨newId, text⟩ ∧
      (get_message newId (create_message text db).2).1 = .okMsg 200 ⟨newId, text⟩ := by
  refine ⟨db.maxUsed + 1, ?_, ?_⟩
  · rw [create_message_eq]
  · rw [create_message_eq]
    have hfresh : ∀ x ∈ db.rows, x.id ≠ db.maxUsed + 1 := by
      intro x hx
      have := id_le_maxUsed hx
      omega
    unfold get_message selectById
    simp only
    rw [find?_insertRow_fresh hfresh]

/-- C6: each mutating handler re-reads the affected row after its
write and answers with the canonical committed value: the body it
returns is exactly what a SELECT of the affected id finds in the
committed post-state (for DELETE the affected row is gone, and the
response carries no body accordingly). -/
theorem C6_reread_after_write (db : Table) (id : Int) (text : String) :
    (∃ r : Row, (create_message text db).1 = .okMsg 201 r ∧ r.text = text ∧
      selectById (create_message text db).2 r.id = some r) ∧
    (∃ s r, (put_message id text db).1 = .okMsg s r ∧
      selectById (put_message id text db).2 id = some r) ∧
    ((patch_message id text db).1 = .httpError 404 "Message not found" ∨
      ∃ r, (patch_message id text db).1 = .okMsg 200 r ∧
        selectById (patch_message id text db).2 id = some r) ∧
    ((delete_message id db).1 = .httpError 404 "Message not found" ∨
      ((delete_message id db).1 = .okEmpty 204 ∧
        selectById (delete_message id db).2 id = none)) := by
  have hfresh : ∀ x ∈ db.rows, x.id ≠ db.maxUsed + 1 := by
    intro x hx
    have := id_le_maxUsed hx
    omega
  refine ⟨?_, ?_, ?_, ?_⟩
  · refine ⟨⟨db.maxUsed + 1, text⟩, ?_, rfl, ?_⟩
    · rw [create_message_eq]
    · rw [create_message_eq]
      unfold selectById
      simp only
      rw [find?_insertRow_fresh hfresh]
  · by_cases habs : ∀ r ∈ db.rows, r.id ≠ id
    · refine ⟨201, ⟨id, text⟩, ?_, ?_⟩
      · rw [put_message_of_absent text habs]
      · rw [put_message_of_absent text habs]
        unfold selectById
        simp only
        rw [find?_insertRow_fresh habs]
    · obtain hex := not_forall_ne_iff.mp habs
      refine ⟨200, ⟨id, text⟩, ?_, ?_⟩
      · rw [put_message_of_present text hex]
      · rw [put_message_of_present text hex]
        exact selectById_updatedTable hex
  · by_cases habs : ∀ r ∈ db.rows, r.id ≠ id
    · left
      rw [patch_message_of_absent text habs]
    · obtain hex := not_forall_ne_iff.mp habs
      right
      refine ⟨⟨id, text⟩, ?_, ?_⟩
      · rw [patch_message_of_present text hex]
      · rw [patch_message_of_present text hex]
        exact selectById_updatedTable hex
  · by_cases habs : ∀ r ∈ db.rows, r.id ≠ id
    · left
      rw [delete_message_of_absent habs]
    · obtain hex := not_forall_ne_iff.mp habs
      right
      refine ⟨?_, ?_⟩
      · rw [delete_message_of_present hex]
      · rw [delete_message_of_present hex]
        apply selectById_eq_none_iff.mpr
        intro r hr
        have := (List.mem_filter.mp hr).2
        simpa using this

/-- C7: PUT is idempotent: performing the same PUT twice leaves the
committed table exactly as one PUT leaves it, the second PUT answers
200, and both PUTs answer with the same Message body. -/
theorem C7_put_idempotent (db : Table) (id : Int) (text : String) :
    (put_message id text (put_message id text db).2).2 = (put_message id text db).2 ∧
    (put_message id text (put_message id text db).2).1 = .okMsg 200 ⟨id, text⟩ ∧
    ((put_message id text db).1 = .okMsg 200 ⟨id, text⟩ ∨
      (put_message id text db).1 = .okMsg 201 ⟨id, text⟩) := by
  by_cases habs : ∀ r ∈ db.rows, r.id ≠ id
  · rw [put_message_of_absent text habs]
    have hmem : (⟨id, text⟩ : Row) ∈ insertRow ⟨id, text⟩ db.rows :=
      mem_insertRow.mpr (Or.inl rfl)
    have hex1 : ∃ r ∈ (⟨insertRow ⟨id, text⟩ db.rows, max db.seq id⟩ : Table).rows, r.id = id :=
      ⟨⟨id, text⟩, hmem, rfl⟩
    rw [put_message_of_present text hex1]
    refine ⟨?_, rfl, Or.inr rfl⟩
    apply updatedTable_eq_self
    intro r hr hrid
    rcases mem_insertRow.mp hr with h1 | h1
    · rw [h1]
    · exact absurd hrid (habs r h1)
  · obtain hex := not_forall_ne_iff.mp habs
    rw [put_message_of_present text hex]
    have hmem : (⟨id, text⟩ : Row) ∈ (updatedTable db id text).rows :=
      (mem_updatedTable hex).mpr (Or.inr rfl)
    have hex1 : ∃ r ∈ (updatedTable db id text).rows, r.id = id := ⟨⟨id, text⟩, hmem, rfl⟩
    rw [put_message_of_present text hex1]
    refine ⟨?_, rfl, Or.inl rfl⟩
    apply updatedTable_eq_self
    intro r hr hrid
    rcases (mem_updatedTable hex).mp hr with ⟨_, h1⟩ | h1
    · exact absurd hrid h1
    · rw [h1]

/-- C8: starting from a table with pairwise-distinct ids, every
operation leaves the ids pairwise distinct (together with the
`sqlite_sequence` bound), and no operation rewrites an existing row's
id: the reads leave the table untouched, POST appends one fresh id,
PATCH leaves the id list exactly as it was, and DELETE either leaves
the table untouched or drops exactly the ids equal to the requested
one. -/
theorem C8_unique_id_invariant (db : Table) (hwf : db.WF) (id : Int) (text : String) :
    (get_messages db).2 = db ∧
    (get_message id db).2 = db ∧
    ((create_message text db).2.WF ∧
      ∃ n : Int, (create_message text db).2.rows.map Row.id = db.rows.map Row.id ++ [n]) ∧
    (put_message id text db).2.WF ∧
    ((patch_message id text db).2.WF ∧
      (patch_message id text db).2.rows.map Row.id = db.rows.map Row.id) ∧
    ((delete_message id db).2.WF ∧
      ((delete_message id db).2 = db ∨
        (delete_message id db).2.rows.map Row.id =
          (db.rows.map Row.id).filter (fun j => !(j == id)))) := by
  refine ⟨rfl, get_message_snd id db, ⟨?_, ?_⟩, ?_, ?_, ?_⟩
  · rw [create_message_eq]
    constructor
    · have hperm := (insertRow_perm ⟨db.maxUsed + 1, text⟩ db.rows).map Row.id
      rw [hperm.nodup_iff]
      rw [List.map_cons, List.nodup_cons]
      refine ⟨?_, hwf.1⟩
      intro hmem
      obtain ⟨x, hx, hxid⟩ := List.mem_map.mp hmem
      have := id_le_maxUsed hx
      simp only at hxid
      omega
    · intro r hr
      rcases mem_insertRow.mp hr with h1 | h1
      · rw [h1]
      · have := id_le_maxUsed h1
        simp only
        omega
  · rw [create_message_eq]
    refine ⟨db.maxUsed + 1, ?_⟩
    have hlt : ∀ x ∈ db.rows, x.id < (⟨db.maxUsed + 1, text⟩ : Row).id := by
      intro x hx
      have := id_le_maxUsed hx
      simp only
      omega
    simp only
    rw [insertRow_eq_append hlt, List.map_append]
    rfl
  · by_cases habs : ∀ r ∈ db.rows, r.id ≠ id
    · rw [put_message_of_absent text habs]
      constructor
      · have hperm := (insertRow_perm ⟨id, text⟩ db.rows).map Row.id
        rw [hperm.nodup_iff]
        rw [List.map_cons, List.nodup_cons]
        refine ⟨?_, hwf.1⟩
        intro hmem
        obtain ⟨x, hx, hxid⟩ := List.mem_map.mp hmem
        exact habs x hx hxid
      · intro r hr
        rcases mem_insertRow.mp hr with h1 | h1
        · rw [h1]
          exact le_max_right _ _
        · have := hwf.2 r h1
          have := le_max_left db.seq id
          simp only
          omega
    · obtain hex := not_forall_ne_iff.mp habs
      rw [put_message_of_present text hex]
      exact WF_updatedTable id text hwf
  · by_cases habs : ∀ r ∈ db.rows, r.id ≠ id
    · rw [patch_message_of_absent text habs]
      exact ⟨hwf, rfl⟩
    · obtain hex := not_forall_ne_iff.mp habs
      rw [patch_message_of_present text hex]
      exact ⟨WF_updatedTable id text hwf, ids_updatedTable db id text⟩
  · by_cases habs : ∀ r ∈ db.rows, r.id ≠ id
    · rw [delete_message_of_absent habs]
      exact ⟨hwf, Or.inl rfl⟩
    · obtain hex := not_forall_ne_iff.mp habs
      rw [delete_message_of_present hex]
      exact ⟨WF_deletedTable id hwf, Or.inr (ids_deletedTable db id)⟩

/-- Witness for C8 on the one-row table with id 1, at id 1 and text
`b`. -/
theorem C8_unique_id_invariant_witness :
    (⟨[⟨1, "a"⟩], 1⟩ : Table).WF ∧
    ((get_messages ⟨[⟨1, "a"⟩], 1⟩).2 = ⟨[⟨1, "a"⟩], 1⟩ ∧
      (get_message 1 ⟨[⟨1, "a"⟩], 1⟩).2 = ⟨[⟨1, "a"⟩], 1⟩ ∧
      ((create_message "b" ⟨[⟨1, "a"⟩], 1⟩).2.WF ∧
        ∃ n : Int, (create_message "b" ⟨[⟨1, "a"⟩], 1⟩).2.rows.map Row.id =
          ([⟨1, "a"⟩] : List Row).map Row.id ++ [n]) ∧
      (put_message 1 "b" ⟨[⟨1, "a"⟩], 1⟩).2.WF ∧
      ((patch_message 1 "b" ⟨[⟨1, "a"⟩], 1⟩).2.WF ∧
        (patch_message 1 "b" ⟨[⟨1, "a"⟩], 1⟩).2.rows.map Row.id =
          ([⟨1, "a"⟩] : List Row).map Row.id) ∧
      ((delete_message 1 ⟨[⟨1, "a"⟩], 1⟩).2.WF ∧
        ((delete_message 1 ⟨[⟨1, "a"⟩], 1⟩).2 = ⟨[⟨1, "a"⟩], 1⟩ ∨
          (delete_message 1 ⟨[⟨1, "a"⟩], 1⟩).2.rows.map Row.id =
            (([⟨1, "a"⟩] : List Row).map Row.id).filter (fun j => !(j == (1 : Int)))))) :=
  ⟨by decide, C8_unique_id_invariant ⟨[⟨1, "a"⟩], 1⟩ (by decide) 1 "b"⟩

/-- C9 counterexample: the request contract does not require the text
to be non-empty.  A POST whose `text` query parameter is the empty
string passes the framework's validation, reaches the handler, and
stores a row whose text is empty. -/
theorem C9_counterexample :
    (route_create (some "") init_db).1 = .okMsg 201 ⟨1, ""⟩ ∧
    (⟨1, ""⟩ : Row) ∈ (route_create (some "") init_db).2.rows ∧
    ¬ (∀ r ∈ (route_create (some "") init_db).2.rows, r.text ≠ "") := by
  decide

/-- C9 as amended: the `text` parameter is required — POST, PUT and
PATCH requests with no `text` parameter are rejected by the framework
with a validation error before any row is written, the table being
returned unchanged — but any supplied string is accepted unchanged,
the empty string included, so a stored row's text may be empty. -/
theorem C9_text_required (db : Table) (id : Int) :
    route_create none db = (.validationError, db) ∧
    route_put id none db = (.validationError, db) ∧
    route_patch id none db = (.validationError, db) ∧
    ∀ text : String,
      route_create (some text) db = create_message text db ∧
      route_put id (some text) db = put_message id text db ∧
      route_patch id (some text) db = patch_message id text db :=
  ⟨rfl, rfl, rfl, fun _ => ⟨rfl, rfl, rfl⟩⟩

/-- C10: the two read operations are pure with respect to the store:
both GETs leave the committed table exactly unchanged, on the success
path and on the 404 path alike. -/
theorem C10_reads_pure (db : Table) (id : Int) :
    (get_messages db).2 = db ∧ (get_message id db).2 = db :=
  ⟨rfl, get_message_snd id db⟩

end RestList
